import Mathlib

/-!
Verification development for the midbel/query JSON query engine.

The embedding follows the canonical core of the repository:
* the query-node model (`all`, `ptr`, `recurse`, `literal`, `ident`, `index`,
  `any`, `array`, `object`, `pipeline`) with its `Next`/`update`/`clear`/
  `Clone`/`String`/`Get` operations,
* the streaming JSON reader (`traverse`, `object`, `array`, `literal`,
  `escape`, `identifier`, `number`, `fraction`, `exponent`, `key`,
  `endObject`, `endArray`, `filter`, `Read`) together with the `compact`
  rune-scanner wrapper that produces the captured spans, and
* the query scanner and recursive-descent parser.

Go pointer mutation is modeled by explicit state passing: every operation
returns the updated tree.  The `$` back-reference (`ptr`) is modeled as a
marker resolved against the first parsed query of the evaluation, threaded
through the evaluator as an explicit environment, mirroring the shared
pointer of the source.  Go map iteration over object fields is modeled by
the insertion-ordered association list (iteration order of a Go map is
unspecified; the parser inserts each field once, so the order is the parse
order here).  Runes are modeled as `Char`s and byte positions as rune
positions; all query texts involved are ASCII, where the two coincide.
-/

namespace MQ

/-- Error classes of the engine: `malformed` corresponds to the reader's
`MalformedError` (a MalformedDocument), `parseErr` to a parse error,
`evalErr` to evaluation errors such as `no query selected`, `eofErr` to a
propagated `io.EOF`, and `outOfFuel` to exhaustion of the recursion fuel
of the interpreter (never reached on the inputs of the theorems below). -/
inductive Err where
  | malformed (msg : String)
  | parseErr (msg : String)
  | evalErr (msg : String)
  | eofErr
  | outOfFuel
deriving Repr, DecidableEq, Inhabited

/-- The query tree, one constructor per variant of the source's polymorphic
`Query` type.  Mutable per-node state (`values`, `last`, `keys`) is carried
in the constructors.  `anyQ`/`arrayQ` record `last` as the index of the
matched child; `objectQ` keeps its field map as an insertion-ordered
association list; `ptrQ` is the `$` back-reference marker. -/
inductive QTree where
  | allQ (value : String)
  | ptrQ
  | recurseQ (inner : QTree)
  | literalQ (value : String)
  | identQ (name : String) (values : List String) (next : Option QTree)
  | indexQ (list : List String) (values : List String) (next : Option QTree)
  | anyQ (list : List QTree) (last : Option Nat)
  | arrayQ (list : List QTree) (last : Option Nat)
  | objectQ (fields : List (String × QTree)) (keys : List String)
  | pipeQ (head : QTree) (stages : List QTree)
deriving Repr, Inhabited

namespace QTree

/-- `keepAll` from the source: only the `all` node keeps the whole input. -/
def keepAll : QTree → Bool
  | .allQ _ => true
  | _ => false

/-- Comma-space separated join (the element loops of `writeArray` and
`writeObject`). -/
def joinSep : List String → String
  | [] => ""
  | [x] => x
  | x :: xs => x ++ ", " ++ joinSep xs

/-- `writeArray` from the source: renders a list of captured values as a
JSON array with a single space after each comma. -/
def writeArray (values : List String) : String :=
  "[" ++ joinSep values ++ "]"

/-- One object of `writeObject`: keys in order, `": "` separators, `null`
for positions beyond the end of the tuple. -/
def writeObjectOne (keys : List String) (vs : List String) : String :=
  "\x7b" ++
    joinSep
      ((List.range keys.length).map fun j =>
        "\"" ++ keys.getD j "" ++ "\": " ++ (vs.getD j "null")) ++
  "\x7d"

/-- `writeObject` from the source: renders the list of tuples, surrounding
them with `[`/`]` exactly when there are at least two tuples. -/
def writeObject (keys : List String) (values : List (List String)) : String :=
  (if values.length > 1 then "[" else "") ++
    joinSep (values.map (writeObjectOne keys)) ++
  (if values.length > 1 then "]" else "")

/-- Modelled from the spec: `slices.Combine` (the external
`github.com/midbel/slices` dependency, not part of this repository) used by
`object.Get`/`object.String`.  The spec describes it as forming the
Cartesian product `V_1 × V_2 × … × V_n` of the per-field value lists; the
product of no lists is the single empty tuple. -/
def combine : List (List String) → List (List String)
  | [] => [[]]
  | l :: ls => l.flatMap fun x => (combine ls).map fun t => x :: t

mutual

/-- `Clone` from the source: a structural copy.  Captured values and
bookkeeping are not copied (`all` clones to an empty `all`, `ident`/`index`
clone without `values`, `any`/`array` without `last`, `object` without
`keys`); `literal` keeps its constant and `ptr` clones to itself. -/
def cloneTree : QTree → QTree
  | .allQ _ => .allQ ""
  | .ptrQ => .ptrQ
  | .recurseQ inner => .recurseQ (cloneTree inner)
  | .literalQ v => .literalQ v
  | .identQ n _ next => .identQ n [] (cloneTreeO next)
  | .indexQ ls _ next => .indexQ ls [] (cloneTreeO next)
  | .anyQ qs _ => .anyQ (cloneTreeL qs) none
  | .arrayQ qs _ => .arrayQ (cloneTreeL qs) none
  | .objectQ fs _ => .objectQ (cloneTreeF fs) []
  | .pipeQ h qs => .pipeQ (cloneTree h) (cloneTreeL qs)

/-- `Clone` of an optional child. -/
def cloneTreeO : Option QTree → Option QTree
  | none => none
  | some q => some (cloneTree q)

/-- `Clone` of a child list. -/
def cloneTreeL : List QTree → List QTree
  | [] => []
  | q :: qs => cloneTree q :: cloneTreeL qs

/-- `Clone` of a field map. -/
def cloneTreeF : List (String × QTree) → List (String × QTree)
  | [] => []
  | (k, q) :: fs => (k, cloneTree q) :: cloneTreeF fs

end

/-- `cloneQuery` from the source: a `ptr` inside an `array`/`object`
constructor is replaced by a clone of its target (the environment);
any other node is kept as is. -/
def cloneQuery (env : Option QTree) : QTree → QTree
  | .ptrQ => cloneTree (env.getD .ptrQ)
  | q => q

mutual

/-- `clear` from the source: resets captured values and bookkeeping,
leaving the structure intact.  `ptr` and `literal` are no-ops; `pipeline`
has no own `clear` and delegates to its embedded head only (stages are
cleared by `pipeline.update` before each run). -/
def clearQ : QTree → QTree
  | .allQ _ => .allQ ""
  | .ptrQ => .ptrQ
  | .recurseQ inner => .recurseQ (clearQ inner)
  | .literalQ v => .literalQ v
  | .identQ n _ next => .identQ n [] (clearQO next)
  | .indexQ ls _ next => .indexQ ls [] (clearQO next)
  | .anyQ qs _ => .anyQ (clearQL qs) none
  | .arrayQ qs _ => .arrayQ (clearQL qs) none
  | .objectQ fs _ => .objectQ (clearQF fs) []
  | .pipeQ h qs => .pipeQ (clearQ h) qs

/-- `clear` of an optional child. -/
def clearQO : Option QTree → Option QTree
  | none => none
  | some q => some (clearQ q)

/-- `clear` of a child list. -/
def clearQL : List QTree → List QTree
  | [] => []
  | q :: qs => clearQ q :: clearQL qs

/-- `clear` of a field map. -/
def clearQF : List (String × QTree) → List (String × QTree)
  | [] => []
  | (k, q) :: fs => (k, clearQ q) :: clearQF fs

end

/-- Association-list lookup mirroring Go's `o.fields[k]`. -/
def lookupField (fs : List (String × QTree)) (k : String) : Option QTree :=
  (fs.find? fun kv => kv.1 == k).map Prod.snd

/-- Association-list update mirroring assignment to a Go map key that is
already present. -/
def setField (fs : List (String × QTree)) (k : String) (q : QTree) :
    List (String × QTree) :=
  fs.map fun kv => if kv.1 == k then (kv.1, q) else kv

/-- Whether a field holds a `literal` node (`object.String`/`object.Get`
append those constant columns after the matched keys). -/
def isLiteral : QTree → Bool
  | .literalQ _ => true
  | _ => false

/-- The key/column pairs inspected by `object.String`/`object.Get`: one
column per entry of `keys` (looked up in the precomputed per-field `Get`
results) followed by one column per `literal` field of the field map. -/
def objCols (m : List (String × Bool × List String)) (keys : List String) :
    List (String × List String) :=
  (keys.map fun k =>
    (k, ((m.find? fun kv => kv.1 == k).map fun kv => kv.2.2).getD [])) ++
  ((m.filter fun kv => kv.2.1).map fun kv => (kv.1, kv.2.2))

mutual

/-- `Get` from the source, for trees whose `ptr` back-references (if any)
are not reachable by the recursion (an unresolved `ptr` yields no values;
see `qGet` for environment resolution). -/
def qGetNP : QTree → List String
  | .allQ v => [v]
  | .ptrQ => []
  | .recurseQ inner => qGetNP inner
  | .literalQ v => [v]
  | .identQ _ vs next =>
    match next with
    | none => vs
    | some nx => qGetNP nx
  | .indexQ _ vs next =>
    match next with
    | none => vs
    | some nx => qGetNP nx
  | .anyQ qs _ => (qGetList qs).map writeArray
  | .arrayQ qs _ => (qGetList qs).map writeArray
  | .objectQ fs keys =>
    let cols := objCols (qGetFields fs) keys
    (combine (cols.map Prod.snd)).map fun vs =>
      writeObject (cols.map Prod.fst) [vs]
  | .pipeQ h _ => qGetNP h

/-- Per-child `Get` results. -/
def qGetList : List QTree → List (List String)
  | [] => []
  | q :: qs => qGetNP q :: qGetList qs

/-- Per-field `(key, isLiteral, Get)` triples of an object node. -/
def qGetFields : List (String × QTree) → List (String × Bool × List String)
  | [] => []
  | (k, q) :: fs => (k, isLiteral q, qGetNP q) :: qGetFields fs

end

mutual

/-- `String` from the source (rendering of an evaluated tree), for trees
whose `ptr` back-references are not reachable by the recursion. -/
def qStringNP : QTree → String
  | .allQ v => v
  | .ptrQ => ""
  | .recurseQ inner => qStringNP inner
  | .literalQ v => v
  | .identQ _ vs next =>
    match next with
    | none => if vs.length == 1 then vs.headD "" else writeArray vs
    | some nx => qStringNP nx
  | .indexQ _ vs next =>
    match next with
    | none => if vs.length == 1 then vs.headD "" else writeArray vs
    | some nx => qStringNP nx
  | .anyQ qs _ => writeArray (qStringList qs)
  | .arrayQ qs _ => writeArray (qs.flatMap qGetNP)
  | .objectQ fs keys =>
    let cols := objCols (qGetFields fs) keys
    writeObject (cols.map Prod.fst) (combine (cols.map Prod.snd))
  | .pipeQ h _ => qStringNP h

/-- Per-child `String` results. -/
def qStringList : List QTree → List String
  | [] => []
  | q :: qs => qStringNP q :: qStringList qs

end

/-- `Get` with `$` resolution: a `ptr` node delegates to the environment
(the first parsed query of the group, itself free of back-references). -/
def qGet (env : Option QTree) (q : QTree) : List String :=
  match q with
  | .ptrQ => qGetNP (env.getD .ptrQ)
  | q => qGetNP q

/-- `String` with `$` resolution, as `qGet`. -/
def qString (env : Option QTree) (q : QTree) : String :=
  match q with
  | .ptrQ => qStringNP (env.getD .ptrQ)
  | q => qStringNP q

end QTree

open QTree

/-- The rune classes of the reader (`jsonBlank`, `jsonQuote`, …). -/
def jsonBlank (c : Char) : Bool :=
  c = ' ' || c = '\t' || c = '\r' || c = '\n'

/-- `jsonQuote` from the source. -/
def jsonQuote (c : Char) : Bool := c = '"'

/-- `jsonArray` from the source. -/
def jsonArray (c : Char) : Bool := c = '['

/-- `jsonObject` from the source. -/
def jsonObject (c : Char) : Bool := c = '\x7b'

/-- `jsonDigit` from the source. -/
def jsonDigit (c : Char) : Bool := '0' ≤ c && c ≤ '9'

/-- `jsonIdent` from the source: first runes of `true`, `false`, `null`. -/
def jsonIdent (c : Char) : Bool := c = 't' || c = 'f' || c = 'n'

/-- `jsonLetter` from the source. -/
def jsonLetter (c : Char) : Bool := 'a' ≤ c && c ≤ 'z'

/-- `jsonHex` from the source. -/
def jsonHex (c : Char) : Bool :=
  jsonDigit c || ('a' ≤ c && c ≤ 'f') || ('A' ≤ c && c ≤ 'F')

/-- `jsonSep` from the source: the compact writer adds a space after these. -/
def jsonSep (c : Char) : Bool := c = ',' || c = ':'

/-- The zero rune returned by a failed `ReadRune`. -/
def nulC : Char := Char.ofNat 0

/-- State of the reader together with the optional `compact` wrapper.
`data`/`pos` model the buffered rune source, `canUnread` whether
`UnreadRune` is currently legal (exactly after a successful `ReadRune`),
`keepBlank` the reader's in-string flag, and `wrapped`/`wbuf`/`wlast`/
`wscan` the `compact` capture wrapper (its buffer, its `last` rune and its
`scanstr` flag). -/
structure RState where
  data : List Char
  pos : Nat
  canUnread : Bool
  keepBlank : Bool
  wrapped : Bool
  wbuf : List Char
  wlast : Char
  wscan : Bool
deriving Repr, Inhabited

/-- The capture buffer is stored in reverse (most recent rune first), so
that appending a rune and truncating from the end are constant-time; the
captured span is its reversal. -/
def wbufStr (s : RState) : String :=
  String.mk s.wbuf.reverse

/-- The fresh reader over a document (`prepare` from the source). -/
def mkState (doc : String) : RState :=
  { data := doc.data, pos := 0, canUnread := false, keepBlank := false
    wrapped := false, wbuf := [], wlast := nulC, wscan := false }

/-- `compact.toggle`: flip `scanstr` on a quote not preceded by a
backslash, and remember the rune as `last`. -/
def wToggle (s : RState) (c : Char) : RState :=
  let scan' := if c = '"' ∧ s.wlast ≠ '\\' then !s.wscan else s.wscan
  { s with wscan := scan', wlast := c }

/-- One `ReadRune` through the (possibly wrapped) scanner: at a successful
read the `compact` wrapper toggles, keeps every non-blank rune (and every
rune inside a string) and inserts a single space after `,`/`:` outside
strings; at end of input the rune is zero and unreading becomes illegal. -/
def readRune (s : RState) : Char × Bool × RState :=
  if h : s.pos < s.data.length then
    let c := s.data.get ⟨s.pos, h⟩
    let s := { s with pos := s.pos + 1, canUnread := true }
    if s.wrapped then
      let s := wToggle s c
      let s :=
        if !jsonBlank c || s.wscan then
          { s with wbuf :=
              (if !s.wscan && jsonSep c then [' '] else []) ++ c :: s.wbuf }
        else s
      (c, false, s)
    else (c, false, s)
  else
    let s := { s with canUnread := false }
    let s := if s.wrapped then wToggle s nulC else s
    (nulC, true, s)

/-- One `UnreadRune`: a no-op unless the previous operation was a
successful `ReadRune`.  The `compact` wrapper drops the unread rune from
its buffer (two bytes when a space was appended after a separator) and
re-toggles with `last`. -/
def unreadRune (s : RState) : RState :=
  if s.canUnread then
    let s := { s with pos := s.pos - 1, canUnread := false }
    if s.wrapped ∧ !s.wbuf.isEmpty then
      let size := if !s.wscan && jsonSep s.wlast then 2 else 1
      let s := { s with wbuf := s.wbuf.drop size }
      wToggle s s.wlast
    else s
  else s

/-- `(*reader).wrap`: install a fresh `compact` wrapper unless one is
already installed. -/
def wrapW (s : RState) : RState :=
  if s.wrapped then s
  else { s with wrapped := true, wbuf := [], wlast := nulC, wscan := false }

/-- `(*reader).unwrap`: remove the wrapper and return its buffer
(the captured span); the empty string when there is no wrapper. -/
def unwrapW (s : RState) : String × RState :=
  if s.wrapped then (wbufStr s, { s with wrapped := false })
  else ("", s)

/-- `(*reader).read`: read runes, skipping blanks unless `keepBlank`,
until a non-blank rune or the end of input (`Bool` is the error flag). -/
def readCh : Nat → RState → Char × Bool × RState
  | 0, s => (nulC, true, s)
  | n + 1, s =>
    let (c, eof, s) := readRune s
    if eof then (c, true, s)
    else if s.keepBlank || !jsonBlank c then (c, false, s)
    else readCh n s

/-- Result of a `Next` consultation: `skipN` (with the node updated by the
failed attempts), `capN` (match with no child: capture the whole sub-value
and `update` the node), or `descN` (match with a child to descend into;
`reb` rebuilds the node around the traversed child). -/
inductive NextOut where
  | skipN (q : QTree) (env : Option QTree)
  | capN (q : QTree) (env : Option QTree)
  | descN (child : QTree) (env : Option QTree)
      (reb : QTree → Option QTree → QTree × Option QTree)

/-- Result of trying the members of an `any`/`array` node in order. -/
inductive TryOut where
  | noHit (qs : List QTree) (env : Option QTree)
  | capHit (qs : List QTree) (i : Nat) (env : Option QTree)
  | descHit (qs : List QTree) (i : Nat) (child : QTree) (env : Option QTree)
      (reb : QTree → Option QTree → QTree × Option QTree)

/-- Result of trying the fields of an `object` node in order. -/
inductive TryFOut where
  | noHit (fs : List (String × QTree)) (env : Option QTree)
  | capHit (fs : List (String × QTree)) (k : String) (env : Option QTree)
  | descHit (fs : List (String × QTree)) (k : String) (child : QTree)
      (env : Option QTree)
      (reb : QTree → Option QTree → QTree × Option QTree)

mutual

/-- `Next` of the source, dispatching on the node variant.  The
environment is the target of `$` back-references and is threaded through
(it changes only when a `ptr` delegates to it). -/
def nextStep : Nat → Option QTree → QTree → String → NextOut
  | 0, env, q, _ => .skipN q env
  | n + 1, env, q, key =>
    match q with
    | .allQ v => .capN (.allQ v) env
    | .ptrQ =>
      match env with
      | none => .skipN .ptrQ none
      | some t =>
        match nextStep n none t key with
        | .skipN t' _ => .skipN .ptrQ (some t')
        | .capN t' _ => .capN .ptrQ (some t')
        | .descN c _ reb =>
          .descN c (some t) fun c' _ => (.ptrQ, some (reb c' none).1)
    | .recurseQ inner =>
      match nextStep n env inner key with
      | .skipN inner' env' =>
        .descN (.recurseQ inner') env' fun c' e' => (c', e')
      | .capN inner' env' => .capN (.recurseQ inner') env'
      | .descN c env' reb =>
        .descN c env' fun c' e' =>
          let r := reb c' e'
          (.recurseQ r.1, r.2)
    | .literalQ v => .skipN (.literalQ v) env
    | .identQ nm vs nx =>
      if key = nm then
        match nx with
        | none => .capN (.identQ nm vs none) env
        | some c =>
          .descN c env fun c' e' => (.identQ nm vs (some c'), e')
      else .skipN (.identQ nm vs nx) env
    | .indexQ ls vs nx =>
      if ls.isEmpty || ls.contains key then
        match nx with
        | none => .capN (.indexQ ls vs none) env
        | some c =>
          .descN c env fun c' e' => (.indexQ ls vs (some c'), e')
      else .skipN (.indexQ ls vs nx) env
    | .anyQ qs last =>
      match tryMembers n false env [] 0 qs key with
      | .noHit qs' env' => .skipN (.anyQ qs' last) env'
      | .capHit qs' i env' => .capN (.anyQ qs' (some i)) env'
      | .descHit qs' i c env' reb =>
        .descN c env' fun c' e' =>
          let r := reb c' e'
          (.anyQ (qs'.set i r.1) (some i), r.2)
    | .arrayQ qs last =>
      match tryMembers n true env [] 0 qs key with
      | .noHit qs' env' => .skipN (.arrayQ qs' last) env'
      | .capHit qs' i env' => .capN (.arrayQ qs' (some i)) env'
      | .descHit qs' i c env' reb =>
        .descN c env' fun c' e' =>
          let r := reb c' e'
          (.arrayQ (qs'.set i r.1) (some i), r.2)
    | .objectQ fs keys =>
      match tryFields n env [] fs key with
      | .noHit fs' env' => .skipN (.objectQ fs' keys) env'
      | .capHit fs' k env' => .capN (.objectQ fs' (keys ++ [k])) env'
      | .descHit fs' k c env' reb =>
        .descN c env' fun c' e' =>
          let r := reb c' e'
          (.objectQ (setField fs' k r.1) (keys ++ [k]), r.2)
    | .pipeQ h stages =>
      match nextStep n env h key with
      | .skipN h' env' => .skipN (.pipeQ h' stages) env'
      | .capN h' env' => .capN (.pipeQ h' stages) env'
      | .descN c env' reb =>
        .descN c env' fun c' e' =>
          let r := reb c' e'
          (.pipeQ r.1 stages, r.2)

/-- Try the members of an `any` (`clone = false`) or `array`
(`clone = true`, applying `cloneQuery` to each member before its `Next`)
in order, keeping the state of failed attempts. -/
def tryMembers : Nat → Bool → Option QTree → List QTree → Nat →
    List QTree → String → TryOut
  | 0, _, env, acc, _, _, _ => .noHit acc env
  | n + 1, clone, env, acc, i, rest, key =>
    match rest with
    | [] => .noHit acc env
    | q :: qs =>
      let q0 := if clone then cloneQuery env q else q
      match nextStep n env q0 key with
      | .skipN q' env' => tryMembers n clone env' (acc ++ [q']) (i + 1) qs key
      | .capN q' env' => .capHit (acc ++ [q'] ++ qs) i env'
      | .descN c env' reb => .descHit (acc ++ [q0] ++ qs) i c env' reb

/-- Try the fields of an `object` in map order (modeled as insertion
order), applying `cloneQuery` to each field before its `Next`; a hit also
reports the matched key. -/
def tryFields : Nat → Option QTree → List (String × QTree) →
    List (String × QTree) → String → TryFOut
  | 0, env, acc, _, _ => .noHit acc env
  | n + 1, env, acc, rest, key =>
    match rest with
    | [] => .noHit acc env
    | (k, q) :: fs =>
      let q0 := cloneQuery env q
      match nextStep n env q0 key with
      | .skipN q' env' => tryFields n env' (acc ++ [(k, q')]) fs key
      | .capN q' env' => .capHit (acc ++ [(k, q')] ++ fs) k env'
      | .descN c env' reb => .descHit (acc ++ [(k, q0)] ++ fs) k c env' reb

end

/-- `(*reader).read` with always-sufficient fuel for its blank-skipping
loop (each step consumes one rune, so `remaining + 1` steps suffice). -/
def readF (s : RState) : Char × Bool × RState :=
  readCh (s.data.length + 1 - s.pos) s

/-- Outcome of `endObject`/`endArray`: the container is finished, has more
members, or the input is malformed. -/
inductive EndRes where
  | done
  | more
  | fail (e : Err)
deriving Repr, Inhabited

/-- One step result of the traversal family: reader state, updated query,
updated `$` environment, optional error. -/
abbrev TRes := RState × Option QTree × Option QTree × Option Err

/-- `(*reader).endObject`: `}` finishes, `,` continues unless followed by
`}` or the end of input (that follower is unread). -/
def endObjectR (s : RState) : RState × EndRes :=
  let r := readF s
  let s := r.2.2
  if r.1 = '\x7d' then (s, .done)
  else if r.1 = ',' then
    let r2 := readF s
    let s := r2.2.2
    if r2.1 = '\x7d' ∨ r2.2.1 then
      (s, .fail (.malformed "object: unexpected character after comma"))
    else (unreadRune s, .more)
  else (s, .fail (.malformed "object: expected comma or closing brace"))

/-- `(*reader).endArray`, as `endObject` with `]`. -/
def endArrayR (s : RState) : RState × EndRes :=
  let r := readF s
  let s := r.2.2
  if r.1 = ']' then (s, .done)
  else if r.1 = ',' then
    let r2 := readF s
    let s := r2.2.2
    if r2.1 = ']' ∨ r2.2.1 then
      (s, .fail (.malformed "array: unexpected character after comma"))
    else (unreadRune s, .more)
  else (s, .fail (.malformed "array: expected comma or closing bracket"))

/-- The four-hex-rune loop of `\u` escapes. -/
def hexLoop : RState → List Char → Nat → RState × List Char × Option Err
  | s, buf, 0 => (s, buf, none)
  | s, buf, k + 1 =>
    let r := readF s
    if jsonHex r.1 then hexLoop r.2.2 (buf ++ [r.1]) k
    else (r.2.2, buf, some (.malformed "not a hex character"))

/-- `(*reader).escape`: copies the escape sequence verbatim into the
buffer; `\u` requires four hex runes; anything else is malformed. -/
def escapeR (s : RState) (buf : List Char) :
    RState × List Char × Option Err :=
  let buf := buf ++ ['\\']
  let r := readF s
  let c := r.1
  let s := r.2.2
  if c = 'n' ∨ c = 'f' ∨ c = 'b' ∨ c = 'r' ∨ c = '"' ∨ c = '\\' ∨ c = '/' then
    (s, buf ++ [c], none)
  else if c = 'u' then hexLoop s (buf ++ ['u']) 4
  else (s, buf, some (.malformed "unknown escape"))

/-- Body loop of `(*reader).literal`: read (with blanks kept) until the
closing quote, handing `\\` to `escape`; a read failure propagates. -/
def litLoop : Nat → RState → List Char → RState × List Char × Option Err
  | 0, s, buf => (s, buf, some .outOfFuel)
  | n + 1, s, buf =>
    let r := readF s
    if r.2.1 then (r.2.2, buf, some .eofErr)
    else if jsonQuote r.1 then (r.2.2, buf, none)
    else if r.1 = '\\' then
      match escapeR r.2.2 buf with
      | (s, buf, some e) => (s, buf, some e)
      | (s, buf, none) => litLoop n s buf
    else litLoop n r.2.2 (buf ++ [r.1])

/-- `(*reader).literal`: toggles `keepBlank` around the body (the toggle
back is deferred, so it runs on error paths as well). -/
def literalR (n : Nat) (s : RState) : RState × String × Option Err :=
  let s := { s with keepBlank := !s.keepBlank }
  match litLoop n s [] with
  | (s, buf, e) =>
    ({ s with keepBlank := !s.keepBlank }, String.mk buf, e)

/-- Letter loop of `(*reader).identifier` (a read failure breaks the
loop, like `io.EOF` in the source). -/
def idLoop : Nat → RState → List Char → RState × List Char
  | 0, s, buf => (s, buf)
  | n + 1, s, buf =>
    let r := readF s
    if r.2.1 then (r.2.2, buf)
    else if jsonLetter r.1 then idLoop n r.2.2 (buf ++ [r.1])
    else (r.2.2, buf)

/-- `(*reader).identifier`: re-reads the dispatch rune, collects letters,
unreads the terminating rune (deferred) and accepts exactly `true`,
`false`, `null`. -/
def identifierR (n : Nat) (s : RState) : RState × Option Err :=
  let s := unreadRune s
  match idLoop n s [] with
  | (s, buf) =>
    let s := unreadRune s
    if String.mk buf = "true" ∨ String.mk buf = "false" ∨
        String.mk buf = "null" then (s, none)
    else (s, some (.malformed "identifier not recognized"))

/-- Digit run loop of `(*reader).number` (consumes the terminating
rune, which the callers unread). -/
def digLoop : Nat → RState → List Char → RState × List Char
  | 0, s, buf => (s, buf)
  | n + 1, s, buf =>
    let r := readF s
    if r.2.1 then (r.2.2, buf)
    else if jsonDigit r.1 then digLoop n r.2.2 (buf ++ [r.1])
    else (r.2.2, buf)

/-- `(*reader).exponent`: optional sign, then a first digit that must not
be `0`, then a digit run; the terminating rune is unread (deferred). -/
def exponentR (n : Nat) (s : RState) (buf : List Char) (exp : Char) :
    RState × List Char × Option Err :=
  let buf := buf ++ [exp]
  let r := readF s
  let step :=
    if r.1 = '-' ∨ r.1 = '+' then
      let r2 := readF r.2.2
      (r2.1, r2.2.2, buf ++ [r.1])
    else (r.1, r.2.2, buf)
  let c := step.1
  let s := step.2.1
  let buf := step.2.2
  if !jsonDigit c ∨ c = '0' then
    (unreadRune s, buf, some (.malformed "expected digit (different of 0) after exponent"))
  else
    match digLoop n s (buf ++ [c]) with
    | (s, buf) => (unreadRune s, buf, none)

/-- `(*reader).fraction`: at least one digit after the dot, then an
optional exponent; the terminating rune is unread (deferred). -/
def fractionR (n : Nat) (s : RState) (buf : List Char) :
    RState × List Char × Option Err :=
  let r := readF s
  let s := r.2.2
  if !jsonDigit r.1 then (s, buf, some (.malformed "expected digit after dot"))
  else
    let s := unreadRune s
    match digLoop n s (buf ++ ['.']) with
    | (s, buf) =>
      let s := unreadRune s
      let r2 := readF s
      let s := r2.2.2
      if r2.1 = 'e' ∨ r2.1 = 'E' then
        match exponentR n s buf r2.1 with
        | (s, buf, e) => (unreadRune s, buf, e)
      else (unreadRune s, buf, none)

/-- `(*reader).number`: a leading `0` must be followed by a fraction or
by a blank, `,`, `}` or `]`; otherwise a digit run with optional fraction
or exponent. -/
def numberR (n : Nat) (s : RState) : RState × String × Option Err :=
  let s := unreadRune s
  let r := readF s
  let s := r.2.2
  if r.1 = '0' then
    let r2 := readF s
    let s := r2.2.2
    if r2.1 = '.' then
      match fractionR n s ['0'] with
      | (s, buf, e) => (s, String.mk buf, e)
    else if jsonBlank r2.1 ∨ r2.1 = ',' ∨ r2.1 = '\x7d' ∨ r2.1 = ']' then
      (unreadRune s, "0", none)
    else (s, "", some (.malformed "expected fraction after 0"))
  else
    let s := unreadRune s
    match digLoop n s [] with
    | (s, buf) =>
      let s := unreadRune s
      let r3 := readF s
      let s := r3.2.2
      if r3.1 = '.' then
        match fractionR n s buf with
        | (s, _, some e) => (s, "", some e)
        | (s, buf, none) => (s, String.mk buf, none)
      else if r3.1 = 'e' ∨ r3.1 = 'E' then
        match exponentR n s buf r3.1 with
        | (s, _, some e) => (s, "", some e)
        | (s, buf, none) => (s, String.mk buf, none)
      else (unreadRune s, String.mk buf, none)

/-- `(*reader).key`: a quoted literal followed by `:`. -/
def keyR (n : Nat) (s : RState) : RState × String × Option Err :=
  let r := readF s
  let s := r.2.2
  if !jsonQuote r.1 then (s, "", some (.malformed "key: expected quote"))
  else
    match literalR n s with
    | (s, _, some e) => (s, "", some e)
    | (s, k, none) =>
      let r2 := readF s
      let s := r2.2.2
      if r2.1 ≠ ':' then (s, "", some (.malformed "key: expected colon"))
      else (s, k, none)

mutual

/-- `(*reader).object`: key, `filter`, then `endObject`, repeatedly. -/
def objectR : Nat → RState → Option QTree → Option QTree → TRes
  | 0, s, q, env => (s, q, env, some .outOfFuel)
  | n + 1, s, q, env =>
    match keyR n s with
    | (s, _, some e) => (s, q, env, some e)
    | (s, k, none) =>
      match filterR n s q env k with
      | (s, q, env, some e) => (s, q, env, some e)
      | (s, q, env, none) =>
        match endObjectR s with
        | (s, .done) => (s, q, env, none)
        | (s, .more) => objectR n s q env
        | (s, .fail e) => (s, q, env, some e)

/-- `(*reader).array`: `filter` with the decimal index as key, then
`endArray`, repeatedly. -/
def arrayR : Nat → RState → Option QTree → Option QTree → Nat → TRes
  | 0, s, q, env, _ => (s, q, env, some .outOfFuel)
  | n + 1, s, q, env, i =>
    match filterR n s q env (toString i) with
    | (s, q, env, some e) => (s, q, env, some e)
    | (s, q, env, none) =>
      match endArrayR s with
      | (s, .done) => (s, q, env, none)
      | (s, .more) => arrayR n s q env (i + 1)
      | (s, .fail e) => (s, q, env, some e)

/-- `(*reader).filter`: consult `Next`; on skip, consume and drop the
sub-value; on a match with no child (except for the `all` query), wrap,
consume, unwrap and hand the captured span to `update` (whose error the
deferred call discards); on a match with a child, descend. -/
def filterR : Nat → RState → Option QTree → Option QTree → String → TRes
  | 0, s, q, env, _ => (s, q, env, some .outOfFuel)
  | n + 1, s, q, env, key =>
    match q with
    | none => traverse n s none env
    | some qq =>
      match nextStep (n + 1) env qq key with
      | .skipN q' env' =>
        match traverse n s none env' with
        | (s, _, env'', err) => (s, some q', env'', err)
      | .capN q' env' =>
        if keepAll q' then
          match traverse n s none env' with
          | (s, _, env'', err) => (s, some q', env'', err)
        else
          let s := wrapW s
          match traverse n s none env' with
          | (s, _, env₂, errT) =>
            let u := unwrapW s
            match updateQ n u.1 q' env₂ with
            | (q₂, env₃, _) => (u.2, some q₂, env₃, errT)
      | .descN c env' reb =>
        match traverse n s (some c) env' with
        | (s, c', env₂, err) =>
          let r := reb (c'.getD c) env₂
          (s, some r.1, r.2, err)

/-- `(*reader).traverse`: dispatch on the first non-blank rune. -/
def traverse : Nat → RState → Option QTree → Option QTree → TRes
  | 0, s, q, env => (s, q, env, some .outOfFuel)
  | n + 1, s, q, env =>
    let r := readF s
    let c := r.1
    let s := r.2.2
    if r.2.1 then (s, q, env, some .eofErr)
    else if jsonQuote c then
      match literalR n s with
      | (s, _, e) => (s, q, env, e)
    else if jsonIdent c then
      match identifierR n s with
      | (s, e) => (s, q, env, e)
    else if jsonDigit c then
      match numberR n s with
      | (s, _, e) => (s, q, env, e)
    else if jsonArray c then arrayR n s q env 0
    else if jsonObject c then objectR n s q env
    else (s, q, env, some (.malformed "unexpected character"))

/-- `(*reader).Read`: wrap (and defer the span hand-off) for the identity
query, traverse the document, then verify that only blanks remain. -/
def readTop : Nat → RState → QTree → Option QTree →
    RState × QTree × Option QTree × Option Err
  | 0, s, q, env => (s, q, env, some .outOfFuel)
  | n + 1, s, q, env =>
    let ka := keepAll q
    let s := if ka then wrapW s else s
    match traverse n s (some q) env with
    | (s, qOpt, env, errT) =>
      let q := qOpt.getD q
      let fin := fun (s : RState) (q : QTree) (env : Option QTree)
          (err : Option Err) =>
        if ka then
          let u := unwrapW s
          match updateQ n u.1 q env with
          | (q', env', _) => (u.2, q', env', err)
        else (s, q, env, err)
      match errT with
      | some e => fin s q env (some e)
      | none =>
        let r := readF s
        if r.2.1 then fin r.2.2 q env none
        else fin r.2.2 q env
          (some (.malformed "malformed JSON document: unexpected end"))

/-- `execute` from the source: a fresh reader over the document, then
`Read`. -/
def executeStr : Nat → String → QTree → Option QTree →
    QTree × Option QTree × Option Err
  | 0, _, q, env => (q, env, some .outOfFuel)
  | n + 1, doc, q, env =>
    match readTop n (mkState doc) q env with
    | (_, q, env, err) => (q, env, err)

/-- `update` from the source: route a captured span to the node's value
list (`all`, `ident`, `index`), to the `last`-selected child
(`any`/`array`), to the field of the last matched key (`object`), through
the `$` target (`ptr`), or through the whole pipeline (`pipeline`). -/
def updateQ : Nat → String → QTree → Option QTree →
    QTree × Option QTree × Option Err
  | 0, _, q, env => (q, env, some .outOfFuel)
  | n + 1, str, q, env =>
    match q with
    | .allQ _ => (.allQ str, env, none)
    | .ptrQ =>
      match env with
      | some t =>
        match updateQ n str t none with
        | (t', _, e) => (.ptrQ, some t', e)
      | none => (.ptrQ, none, some (.evalErr "no pointer target"))
    | .recurseQ inner =>
      match updateQ n str inner env with
      | (i', env', e) => (.recurseQ i', env', e)
    | .literalQ v => (.literalQ v, env, some (.evalErr "literal query can not be updated"))
    | .identQ nm vs nx => (.identQ nm (vs ++ [str]) nx, env, none)
    | .indexQ ls vs nx => (.indexQ ls (vs ++ [str]) nx, env, none)
    | .anyQ qs last =>
      match last with
      | none => (.anyQ qs none, env, some (.evalErr "no query selected"))
      | some i =>
        match updateQ n str (qs.getD i (.allQ "")) env with
        | (qi', env', e) => (.anyQ (qs.set i qi') none, env', e)
    | .arrayQ qs last =>
      match last with
      | none => (.arrayQ qs none, env, some (.evalErr "no query selected"))
      | some i =>
        match updateQ n str (qs.getD i (.allQ "")) env with
        | (qi', env', e) => (.arrayQ (qs.set i qi') none, env', e)
    | .objectQ fs keys =>
      match keys.getLast? with
      | none => (.objectQ fs keys, env, some (.evalErr "no query selected"))
      | some k =>
        match lookupField fs k with
        | none => (.objectQ fs keys, env, some (.evalErr "no query selected for key"))
        | some qk =>
          match updateQ n str qk env with
          | (qk', env', e) => (.objectQ (setField fs k qk') keys, env', e)
    | .pipeQ h stages =>
      let owner := env.isNone
      let env0 := if owner then some h else env
      match pipeStages n stages env0 str with
      | (stages', env1, _, some e) =>
        if owner then (.pipeQ (env1.getD h) stages', none, some e)
        else (.pipeQ h stages', env1, some e)
      | (stages', env1, str1, none) =>
        if owner then
          match updateQ n str1 (env1.getD h) none with
          | (h', _, eH) => (.pipeQ h' stages', none, eH)
        else
          match updateQ n str1 h env1 with
          | (h', env2, eH) => (.pipeQ h' stages', env2, eH)

/-- `pipeline.update`'s stage loop: clear the stage, run it on the
current intermediate (stopping at the first stage error), and render its
output as the next intermediate. -/
def pipeStages : Nat → List QTree → Option QTree → String →
    List QTree × Option QTree × String × Option Err
  | 0, stages, env, str => (stages, env, str, some .outOfFuel)
  | _ + 1, [], env, str => ([], env, str, none)
  | n + 1, sq :: rest, env, str =>
    let sq0 := clearQ sq
    match executeStr n str sq0 env with
    | (sq1, env1, some e) => (sq1 :: rest, env1, str, some e)
    | (sq1, env1, none) =>
      let str1 := qString env1 sq1
      match pipeStages n rest env1 str1 with
      | (rest', env2, str2, e2) => (sq1 :: rest', env2, str2, e2)

end

/-! ### The query scanner and parser -/

/-- Token kinds of the query scanner (`Eof`, `Literal`, `Number`, `Link`,
`Dot`, `Depth`, `Comma`, parens, brackets, braces, `Colon`, `Pipe`,
`Invalid`); `zeroT` is the zero `Token` produced when no scan rule fires. -/
inductive TokTy where
  | eofT | litT | numT | linkT | dotT | depthT | commaT
  | lparenT | rparenT | lsquareT | rsquareT | lcurlyT | rcurlyT
  | colonT | pipeT | invalidT | zeroT
deriving Repr, DecidableEq, Inhabited

/-- A scanner token. -/
structure Token where
  ty : TokTy
  lit : String
deriving Repr, DecidableEq, Inhabited

/-- The query scanner state (`input`, `curr`, `next`, `char`). -/
structure Scanner where
  input : List Char
  curr : Nat
  next : Nat
  char : Char
deriving Repr, Inhabited

/-- `utf8.DecodeRune` on the suffix starting at `i`: the rune and its
width, the replacement rune with width `0` on an empty suffix (runes are
modeled as single positions). -/
def decodeAt (l : List Char) (i : Nat) : Char × Nat :=
  if h : i < l.length then (l.get ⟨i, h⟩, 1) else (Char.ofNat 0xFFFD, 0)

/-- `(*Scanner).read`. -/
def sRead (s : Scanner) : Scanner :=
  if s.curr ≥ s.input.length then { s with char := nulC }
  else
    let d := decodeAt s.input s.next
    { s with char := d.1, curr := s.next, next := s.next + d.2 }

/-- `(*Scanner).unread`. -/
def sUnread (s : Scanner) : Scanner :=
  let d := decodeAt s.input s.curr
  { s with char := d.1, next := s.curr, curr := s.curr - d.2 }

/-- `(*Scanner).peek`. -/
def sPeek (s : Scanner) : Char := (decodeAt s.input s.next).1

/-- `(*Scanner).done`. -/
def sDone (s : Scanner) : Bool := s.curr ≥ s.input.length

/-- `isLower`/`isUpper`/`isLetter` of the scanner. -/
def sLetter (c : Char) : Bool := ('a' ≤ c && c ≤ 'z') || ('A' ≤ c && c ≤ 'Z')

/-- `isAlpha` of the scanner: letters, digits and underscore. -/
def sAlpha (c : Char) : Bool := sLetter c || jsonDigit c || c = '_'

/-- `isBlank` of the scanner: space and tab only. -/
def sBlank (c : Char) : Bool := c = ' ' || c = '\t'

/-- `isQuote` of the scanner: single or double quote. -/
def sQuote (c : Char) : Bool := c = '\'' || c = '"'

/-- `isDelim` of the scanner: groups and punctuation. -/
def sDelim (c : Char) : Bool :=
  c = '(' || c = ')' || c = '[' || c = ']' || c = '\x7b' || c = '\x7d' ||
  c = '.' || c = ',' || c = ':' || c = '|' || c = '$'

/-- `(*Scanner).scanIdent` (the deferred `unread` applied at the end). -/
def scanIdentLoop : Nat → Scanner → Scanner
  | 0, s => s
  | n + 1, s =>
    if !sDone s ∧ sAlpha s.char then scanIdentLoop n (sRead s) else s

/-- `(*Scanner).scanQuote`'s loop. -/
def scanQuoteLoop : Nat → Scanner → Char → Scanner
  | 0, s, _ => s
  | n + 1, s, quote =>
    if !sDone s ∧ s.char ≠ quote then scanQuoteLoop n (sRead s) quote else s

/-- `(*Scanner).scanNumber`'s loop. -/
def scanNumLoop : Nat → Scanner → Scanner
  | 0, s => s
  | n + 1, s =>
    if !sDone s ∧ jsonDigit s.char then scanNumLoop n (sRead s) else s

/-- `(*Scanner).skipBlank`'s loop. -/
def skipBlankLoop : Nat → Scanner → Scanner
  | 0, s => s
  | n + 1, s =>
    if !sDone s ∧ sBlank s.char then skipBlankLoop n (sRead s) else s

/-- The sublist `input[a:b]` as a string. -/
def sliceStr (l : List Char) (a b : Nat) : String :=
  String.mk ((l.take b).drop a)

/-- `(*Scanner).scanDelim`. -/
def scanDelim (s : Scanner) : Scanner × Token :=
  if s.char = '$' then (s, ⟨.linkT, ""⟩)
  else if s.char = '\x7b' then (s, ⟨.lcurlyT, ""⟩)
  else if s.char = '\x7d' then (s, ⟨.rcurlyT, ""⟩)
  else if s.char = ':' then (s, ⟨.colonT, ""⟩)
  else if s.char = ',' then (s, ⟨.commaT, ""⟩)
  else if s.char = '.' then
    if sPeek s = s.char then (sRead s, ⟨.depthT, ""⟩) else (s, ⟨.dotT, ""⟩)
  else if s.char = '(' then (s, ⟨.lparenT, ""⟩)
  else if s.char = ')' then (s, ⟨.rparenT, ""⟩)
  else if s.char = '[' then (s, ⟨.lsquareT, ""⟩)
  else if s.char = ']' then (s, ⟨.rsquareT, ""⟩)
  else if s.char = '|' then (s, ⟨.pipeT, ""⟩)
  else (s, ⟨.invalidT, ""⟩)

/-- `(*Scanner).Scan`: one token (recursing over blank runs). -/
def scanTok : Nat → Scanner → Scanner × Token
  | 0, s => (s, ⟨.eofT, ""⟩)
  | n + 1, s =>
    let s := sRead s
    if sDone s then (s, ⟨.eofT, ""⟩)
    else if sLetter s.char then
      let pos := s.curr
      let s := scanIdentLoop (s.input.length + 1) s
      (sUnread s, ⟨.litT, sliceStr s.input pos s.curr⟩)
    else if sQuote s.char then
      let quote := s.char
      let s := sRead s
      let pos := s.curr
      let s := scanQuoteLoop (s.input.length + 1) s quote
      (s, ⟨if s.char = quote then .litT else .invalidT,
        sliceStr s.input pos s.curr⟩)
    else if jsonDigit s.char then
      let pos := s.curr
      let s := scanNumLoop (s.input.length + 1) s
      (sUnread s, ⟨.numT, sliceStr s.input pos s.curr⟩)
    else if sDelim s.char then scanDelim s
    else if sBlank s.char then
      let s := sUnread (skipBlankLoop (s.input.length + 1) s)
      scanTok n s
    else (s, ⟨.zeroT, ""⟩)

/-- The parser state: scanner, current and peek tokens, constructor
depth, and the number of parsed top-level queries of the current group
(the `parsed` slice, of which only emptiness is consulted; `$` is a marker
resolved at evaluation time). -/
structure PState where
  scan : Scanner
  curr : Token
  peek : Token
  depth : Nat
  parsedCount : Nat
deriving Repr, Inhabited

/-- `(*Parser).next`. -/
def pNext (p : PState) : PState :=
  let r := scanTok (p.scan.input.length + 2) p.scan
  { p with curr := p.peek, peek := r.2, scan := r.1 }

/-- `(*Parser).push`: record a parsed query unless nested deeper than one
constructor. -/
def pPush (p : PState) : PState :=
  if p.depth > 1 then p else { p with parsedCount := p.parsedCount + 1 }

/-- `(*Parser).reset`. -/
def pReset (p : PState) : PState :=
  { p with depth := 0, parsedCount := 0 }

/-- Map-style insertion into the object field list: overwrite an existing
key, append a new one. -/
def putField (fs : List (String × QTree)) (k : String) (q : QTree) :
    List (String × QTree) :=
  if fs.any fun kv => kv.1 == k then setField fs k q else fs ++ [(k, q)]

/-- `(*Parser).parseLink`: `$` with an optional number; legal only when a
query of the current group was already parsed. -/
def parseLinkP (p : PState) : PState × Except Err QTree :=
  let p := pNext p
  let p := if p.curr.ty = .numT then pNext p else p
  if p.parsedCount = 0 then (p, .error (.parseErr "no query parsed"))
  else (p, .ok .ptrQ)

mutual

/-- `(*Parser).parse`: comma-separated queries collected into `any`
(a single query stays bare). -/
def parseP : Nat → PState → List QTree → PState × Except Err QTree
  | 0, p, _ => (p, .error .outOfFuel)
  | n + 1, p, list =>
    if p.curr.ty = .eofT then
      (p, .ok (match list with
        | [q] => q
        | qs => .anyQ qs none))
    else
      match parseQueryP n p with
      | (p, .error e) => (p, .error e)
      | (p, .ok q) =>
        let list := list ++ [q]
        if p.curr.ty = .commaT then
          let p := pNext p
          if p.curr.ty = .eofT then
            (p, .error (.parseErr "parser: expected query after comma"))
          else parseP n (pReset p) list
        else if p.curr.ty = .eofT then parseP n (pReset p) list
        else (p, .error (.parseErr "parser: expected comma or end of input"))

/-- `(*Parser).parseQuery`: dispatch on the leading token, wrap `..` in
`recurse`, attach a pipeline, and require a valid follower. -/
def parseQueryP : Nat → PState → PState × Except Err QTree
  | 0, p => (p, .error .outOfFuel)
  | n + 1, p =>
    let step : PState × Except Err QTree :=
      if p.curr.ty = .depthT then
        match parseDotP n p with
        | (p, .ok q) => (p, .ok (.recurseQ q))
        | r => r
      else if p.curr.ty = .dotT then parseDotP n p
      else if p.curr.ty = .lsquareT then parseArrayP n p
      else if p.curr.ty = .lcurlyT then parseObjectP n p
      else if p.curr.ty = .linkT then parseLinkP p
      else (p, .error (.parseErr "query: expected dot, bracket or brace"))
    match step with
    | (p, .error e) => (p, .error e)
    | (p, .ok q) =>
      let piped : PState × Except Err QTree :=
        if p.curr.ty = .pipeT then parsePipeP n p q else (p, .ok q)
      match piped with
      | (p, .error e) => (p, .error e)
      | (p, .ok q) =>
        if p.curr.ty = .eofT ∨ p.curr.ty = .commaT ∨ p.curr.ty = .pipeT ∨
            p.curr.ty = .rsquareT ∨ p.curr.ty = .rcurlyT then (p, .ok q)
        else (p, .error (.parseErr "query: expected separator or end of input"))

/-- `(*Parser).parseDot`: after `.`/`..`, a pipe elides the identity, end
of input is the identity, a literal is an ident, `[` is an index. -/
def parseDotP : Nat → PState → PState × Except Err QTree
  | 0, p => (p, .error .outOfFuel)
  | n + 1, p =>
    let p := pNext p
    if p.curr.ty = .pipeT then parseQueryP n (pNext p)
    else if p.curr.ty = .eofT then (p, .ok (.allQ ""))
    else if p.curr.ty = .litT then parseIdentP n p
    else if p.curr.ty = .lsquareT then parseIndexP n p
    else (p, .error (.parseErr "dot: expected literal, pipe or bracket"))

/-- `(*Parser).parseIdent`. -/
def parseIdentP : Nat → PState → PState × Except Err QTree
  | 0, p => (p, .error .outOfFuel)
  | n + 1, p =>
    let p := { p with depth := p.depth + 1 }
    let nm := p.curr.lit
    let p := pNext p
    let p := pPush p
    let leave := fun (p : PState) => { p with depth := p.depth - 1 }
    if (p.curr.ty = .dotT ∨ p.curr.ty = .depthT) ∧ p.peek.ty = .eofT then
      (leave p, .error (.parseErr "ident: unexpected end of input after dot"))
    else if p.curr.ty = .dotT ∨ p.curr.ty = .depthT then
      match parseQueryP n p with
      | (p, .error e) => (leave p, .error e)
      | (p, .ok nx) => (leave p, .ok (.identQ nm [] (some nx)))
    else if p.curr.ty = .lsquareT then
      match parseIndexP n p with
      | (p, .error e) => (leave p, .error e)
      | (p, .ok nx) => (leave p, .ok (.identQ nm [] (some nx)))
    else (leave p, .ok (.identQ nm [] none))

/-- The number-list loop of `(*Parser).parseIndex`. -/
def parseIndexList : Nat → PState → List String →
    PState × Except Err (List String)
  | 0, p, _ => (p, .error .outOfFuel)
  | n + 1, p, acc =>
    if p.curr.ty = .eofT ∨ p.curr.ty = .rsquareT then (p, .ok acc)
    else if p.curr.ty ≠ .numT then
      (p, .error (.parseErr "index: number expected"))
    else
      let acc := acc ++ [p.curr.lit]
      let p := pNext p
      if p.curr.ty = .commaT then
        let p := pNext p
        if p.curr.ty = .rsquareT then
          (p, .error (.parseErr "index: expected number after comma"))
        else parseIndexList n p acc
      else if p.curr.ty = .rsquareT then (p, .ok acc)
      else (p, .error (.parseErr "index: expected comma or closing bracket"))

/-- `(*Parser).parseIndex`. -/
def parseIndexP : Nat → PState → PState × Except Err QTree
  | 0, p => (p, .error .outOfFuel)
  | n + 1, p =>
    let p := { p with depth := p.depth + 1 }
    let leave := fun (p : PState) => { p with depth := p.depth - 1 }
    let p := pNext p
    match parseIndexList n p [] with
    | (p, .error e) => (leave p, .error e)
    | (p, .ok ls) =>
      if p.curr.ty ≠ .rsquareT then
        (leave p, .error (.parseErr "index: expected closing bracket"))
      else
        let p := pNext p
        let p := pPush p
        if (p.curr.ty = .dotT ∨ p.curr.ty = .depthT) ∧ p.peek.ty = .eofT then
          (leave p, .error (.parseErr "index: unexpected end of input after dot"))
        else if p.curr.ty = .dotT ∨ p.curr.ty = .depthT then
          match parseQueryP n p with
          | (p, .error e) => (leave p, .error e)
          | (p, .ok nx) => (leave p, .ok (.indexQ ls [] (some nx)))
        else if p.curr.ty = .pipeT then
          match parsePipeP n p (.indexQ ls [] none) with
          | (p, r) => (leave p, r)
        else (leave p, .ok (.indexQ ls [] none))

/-- The stage loop of `(*Parser).parsePipe` (a trailing identity stage at
the end of input is elided). -/
def parsePipeLoop : Nat → PState → List QTree →
    PState × Except Err (List QTree)
  | 0, p, _ => (p, .error .outOfFuel)
  | n + 1, p, acc =>
    if p.curr.ty = .eofT ∨ p.curr.ty = .rcurlyT ∨ p.curr.ty = .rsquareT ∨
        p.curr.ty = .commaT then (p, .ok acc)
    else
      let step : PState × Except Err QTree :=
        if p.curr.ty = .lsquareT then parseArrayP n p
        else if p.curr.ty = .lcurlyT then parseObjectP n p
        else if p.curr.ty = .linkT then parseLinkP p
        else if p.curr.ty = .depthT then parseQueryP n p
        else parseDotP n p
      match step with
      | (p, .error e) => (p, .error e)
      | (p, .ok q) =>
        if keepAll q ∧ p.curr.ty = .eofT then parsePipeLoop n p acc
        else
          let acc := acc ++ [q]
          if p.curr.ty = .pipeT then
            let p := pNext p
            if p.curr.ty = .eofT ∨ p.curr.ty = .rcurlyT ∨
                p.curr.ty = .rsquareT ∨ p.curr.ty = .commaT then
              (p, .error (.parseErr "pipeline: expected query after pipe"))
            else parsePipeLoop n p acc
          else if p.curr.ty = .eofT ∨ p.curr.ty = .commaT ∨
              p.curr.ty = .rcurlyT ∨ p.curr.ty = .rsquareT then
            parsePipeLoop n p acc
          else (p, .error (.parseErr "pipeline: expected separator"))

/-- `(*Parser).parsePipe`. -/
def parsePipeP : Nat → PState → QTree → PState × Except Err QTree
  | 0, p, _ => (p, .error .outOfFuel)
  | n + 1, p, q =>
    let p := pNext p
    match parsePipeLoop n p [] with
    | (p, .error e) => (p, .error e)
    | (p, .ok stages) => (p, .ok (.pipeQ q stages))

/-- The item loop of `(*Parser).parseArray`. -/
def parseArrayLoop : Nat → PState → List QTree →
    PState × Except Err (List QTree)
  | 0, p, _ => (p, .error .outOfFuel)
  | n + 1, p, acc =>
    if p.curr.ty = .eofT ∨ p.curr.ty = .rsquareT then (p, .ok acc)
    else
      let step : PState × Except Err QTree :=
        if p.curr.ty = .litT ∨ p.curr.ty = .numT then
          (pNext p, .ok (.literalQ p.curr.lit))
        else parseQueryP n p
      match step with
      | (p, .error e) => (p, .error e)
      | (p, .ok q) =>
        let acc := acc ++ [q]
        if p.curr.ty = .commaT then
          let p := pNext p
          if p.curr.ty = .rsquareT then
            (p, .error (.parseErr "array: expected query after comma"))
          else parseArrayLoop n p acc
        else if p.curr.ty = .rsquareT then parseArrayLoop n p acc
        else (p, .error (.parseErr "array: expected comma or closing bracket"))

/-- `(*Parser).parseArray`. -/
def parseArrayP : Nat → PState → PState × Except Err QTree
  | 0, p => (p, .error .outOfFuel)
  | n + 1, p =>
    let p := { p with depth := p.depth + 1 }
    let leave := fun (p : PState) => { p with depth := p.depth - 1 }
    let p := pNext p
    match parseArrayLoop n p [] with
    | (p, .error e) => (leave p, .error e)
    | (p, .ok qs) =>
      if p.curr.ty ≠ .rsquareT then
        (leave p, .error (.parseErr "array: expected closing bracket at end"))
      else (leave (pPush (pNext p)), .ok (.arrayQ qs none))

/-- The field loop of `(*Parser).parseObject`. -/
def parseObjectLoop : Nat → PState → List (String × QTree) →
    PState × Except Err (List (String × QTree))
  | 0, p, _ => (p, .error .outOfFuel)
  | n + 1, p, acc =>
    if p.curr.ty = .eofT ∨ p.curr.ty = .rcurlyT then (p, .ok acc)
    else
      let named : PState × Except Err String :=
        if p.curr.ty = .dotT then (p, .ok p.peek.lit)
        else if p.curr.ty = .litT then
          let k := p.curr.lit
          let p := pNext p
          if p.curr.ty ≠ .colonT then
            (p, .error (.parseErr "object: expect colon after literal"))
          else (pNext p, .ok k)
        else (p, .error (.parseErr "object: expected dot or literal"))
      match named with
      | (p, .error e) => (p, .error e)
      | (p, .ok k) =>
        let step : PState × Except Err QTree :=
          if p.curr.ty = .litT ∨ p.curr.ty = .numT then
            (pNext p, .ok (.literalQ p.curr.lit))
          else parseQueryP n p
        match step with
        | (p, .error e) => (p, .error e)
        | (p, .ok q) =>
          let acc := putField acc k q
          if p.curr.ty = .commaT then
            let p := pNext p
            if p.curr.ty = .rcurlyT then
              (p, .error (.parseErr "object: expected query after comma"))
            else parseObjectLoop n p acc
          else if p.curr.ty = .rcurlyT then parseObjectLoop n p acc
          else (p, .error (.parseErr "object: expected comma or closing brace"))

/-- `(*Parser).parseObject`. -/
def parseObjectP : Nat → PState → PState × Except Err QTree
  | 0, p => (p, .error .outOfFuel)
  | n + 1, p =>
    let p := { p with depth := p.depth + 1 }
    let leave := fun (p : PState) => { p with depth := p.depth - 1 }
    let p := pNext p
    match parseObjectLoop n p [] with
    | (p, .error e) => (leave p, .error e)
    | (p, .ok fs) =>
      if p.curr.ty ≠ .rcurlyT then
        (leave p, .error (.parseErr "object: expected closing brace at end"))
      else (leave (pPush (pNext p)), .ok (.objectQ fs []))

end

/-- Go `strings.TrimSpace` restricted to the blank runes in play. -/
def trimSpace (s : String) : String :=
  String.mk ((s.data.dropWhile fun c => jsonBlank c).reverse.dropWhile
    (fun c => jsonBlank c) |>.reverse)

/-- `Parse` from the source: the bare identity short-circuits to `All`;
otherwise scan and parse. -/
def goParse (str : String) : Except Err QTree :=
  let str := trimSpace str
  if str = "." then .ok (.allQ "")
  else
    let sc : Scanner := { input := str.data, curr := 0, next := 0, char := nulC }
    let p : PState :=
      { scan := sc, curr := ⟨.zeroT, ""⟩, peek := ⟨.zeroT, ""⟩
        depth := 0, parsedCount := 0 }
    let p := pNext (pNext p)
    (parseP (str.length + 4) p []).2

/-- `Execute` from the source: parse, evaluate against the document, and
render the tree. -/
def goExecute (fuel : Nat) (doc query : String) : Except Err String :=
  match goParse query with
  | .error e => .error e
  | .ok q =>
    match executeStr fuel doc q none with
    | (q', env', none) => .ok (qString env' q')
    | (_, _, some e) => .error e

/-- `evaluate_tree`: evaluate an already-parsed tree against a document
and render it. -/
def goExecuteTree (fuel : Nat) (doc : String) (q : QTree) :
    Except Err String :=
  match executeStr fuel doc q none with
  | (q', env', none) => .ok (qString env' q')
  | (_, _, some e) => .error e


/-! ### The JSON dialect of the reader -/

/-- One rune group of a string-literal body: a plain rune, a
single-character escape, or a `\u` escape with four hex runes. -/
inductive SChar where
  | plain (c : Char)
  | esc (c : Char)
  | escU (a b c d : Char)
deriving Repr, DecidableEq, Inhabited

/-- The source text of a string-body rune group. -/
def SChar.render : SChar → List Char
  | .plain c => [c]
  | .esc c => ['\\', c]
  | .escU a b c d => ['\\', 'u', a, b, c, d]

/-- Well-formedness of a string-body rune group, mirroring what
`(*reader).literal`/`escape` accept: a plain rune is neither a quote nor a
backslash, escapes are the supported ones, `\u` takes four hex runes. -/
def SChar.wfb : SChar → Bool
  | .plain c => !(c = '"' || c = '\\')
  | .esc c => c = 'n' || c = 'f' || c = 'b' || c = 'r' || c = '"' ||
      c = '\\' || c = '/'
  | .escU a b c d => jsonHex a && jsonHex b && jsonHex c && jsonHex d

/-- A JSON value of the dialect the reader accepts.  Numbers carry their
source text split into integer part, optional fraction digits, and
optional exponent (its letter, optional sign, digits); strings and object
keys carry their body as escape-aware rune groups. -/
inductive Json where
  | str (cs : List SChar)
  | num (i : List Char) (f : Option (List Char))
      (e : Option (Char × Option Char × List Char))
  | boolJ (b : Bool)
  | nullJ
  | arr (elems : List Json)
  | obj (fields : List (List SChar × Json))
deriving Repr, Inhabited

/-- The canonical compact rendering of a number from its parts. -/
def numText (i : List Char) (f : Option (List Char))
    (e : Option (Char × Option Char × List Char)) : List Char :=
  i ++ (match f with | none => [] | some d => '.' :: d) ++
    (match e with
      | none => []
      | some (ec, sg, d) => ec :: (match sg with | none => [] | some c => [c]) ++ d)

mutual

/-- Canonical compact rendering: no insignificant whitespace, a single
space after every `,` and `:` outside string literals, string bodies
byte-for-byte. -/
def renderC : Json → List Char
  | .str cs => '"' :: cs.flatMap SChar.render ++ ['"']
  | .num i f e => numText i f e
  | .boolJ true => 't' :: 'r' :: 'u' :: ['e']
  | .boolJ false => 'f' :: 'a' :: 'l' :: 's' :: ['e']
  | .nullJ => 'n' :: 'u' :: 'l' :: ['l']
  | .arr es => '[' :: renderList es ++ [']']
  | .obj fs => '\x7b' :: renderFields fs ++ ['\x7d']

/-- Canonical rendering of array members, `", "`-separated. -/
def renderList : List Json → List Char
  | [] => []
  | [e] => renderC e
  | e :: es => renderC e ++ ',' :: ' ' :: renderList es

/-- Canonical rendering of object fields, `": "` after each key and
`", "` between fields. -/
def renderFields : List (List SChar × Json) → List Char
  | [] => []
  | [(k, v)] => '"' :: k.flatMap SChar.render ++ '"' :: ':' :: ' ' :: renderC v
  | (k, v) :: fs =>
    '"' :: k.flatMap SChar.render ++ '"' :: ':' :: ' ' :: renderC v ++
      ',' :: ' ' :: renderFields fs

end

/-- Nonzero decimal digit. -/
def digNZ (c : Char) : Bool := '1' ≤ c && c ≤ '9'

/-- Well-formedness of a number's parts for the reader: the integer part
is `0` or starts with a nonzero digit; bare `0` takes no exponent without
a fraction; fraction digits are nonempty; the exponent's first digit is
not `0`. -/
def wfNum (i : List Char) (f : Option (List Char))
    (e : Option (Char × Option Char × List Char)) : Bool :=
  (match i with
    | ['0'] => f.isSome || e.isNone
    | c :: cs => digNZ c && cs.all jsonDigit
    | [] => false) &&
  (match f with | none => true | some d => !d.isEmpty && d.all jsonDigit) &&
  (match e with
    | none => true
    | some (ec, sg, d) =>
      (ec = 'e' || ec = 'E') &&
      (match sg with | none => true | some c => c = '+' || c = '-') &&
      (match d with
        | [] => false
        | c :: cs => (jsonDigit c && !(c = '0')) && cs.all jsonDigit))

mutual

/-- Well-formedness of a dialect value: numbers per `wfNum`, string and
key bodies per `SChar.wfb`, and nonempty arrays and objects (the reader
rejects `[]` and `{}`). -/
def wfJ : Json → Bool
  | .str cs => cs.all SChar.wfb
  | .num i f e => wfNum i f e
  | .boolJ _ => true
  | .nullJ => true
  | .arr es => !es.isEmpty && wfL es
  | .obj fs => !fs.isEmpty && wfF fs

/-- Well-formedness of array members. -/
def wfL : List Json → Bool
  | [] => true
  | e :: es => wfJ e && wfL es

/-- Well-formedness of object fields. -/
def wfF : List (List SChar × Json) → Bool
  | [] => true
  | (k, v) :: fs => k.all SChar.wfb && wfJ v && wfF fs

end

mutual

/-- No string literal (value or key) ends in an escaped backslash: the
compact writer's in-string tracker misreads the closing quote after the
rune `\`, so canonical compaction is only guaranteed without such
strings. -/
def noTB : Json → Bool
  | .str cs => noTBs cs
  | .num _ _ _ => true
  | .boolJ _ => true
  | .nullJ => true
  | .arr es => noTBl es
  | .obj fs => noTBf fs

/-- The body does not end in an escaped backslash. -/
def noTBs (cs : List SChar) : Bool :=
  match cs.getLast? with
  | some (.esc '\\') => false
  | _ => true

/-- `noTB` over array members. -/
def noTBl : List Json → Bool
  | [] => true
  | e :: es => noTB e && noTBl es

/-- `noTB` over object fields. -/
def noTBf : List (List SChar × Json) → Bool
  | [] => true
  | (k, v) :: fs => noTBs k && noTB v && noTBf fs

end

/-- A gap supply: the `i`-th run of insignificant blanks of the spaced
rendering. -/
def GapOK (ws : Nat → List Char) : Prop :=
  ∀ i, (ws i).all jsonBlank

mutual

/-- The spaced source text of a value: the canonical text with the
supply's blank runs inserted at every position the reader tolerates
(before every array member, around every object key and colon, after
every member).  Returns the text and the next unused gap index.  The
value itself carries no leading gap (callers insert it). -/
def spacedC : Json → (Nat → List Char) → Nat → List Char × Nat
  | .str cs, _, i => ('"' :: cs.flatMap SChar.render ++ ['"'], i)
  | .num a f e, _, i => (numText a f e, i)
  | .boolJ true, _, i => ('t' :: 'r' :: 'u' :: ['e'], i)
  | .boolJ false, _, i => ('f' :: 'a' :: 'l' :: 's' :: ['e'], i)
  | .nullJ, _, i => ('n' :: 'u' :: 'l' :: ['l'], i)
  | .arr es, ws, i =>
    let r := spacedMems es ws (i + 1)
    ('[' :: ws i ++ r.1 ++ [']'], r.2)
  | .obj fs, ws, i =>
    let r := spacedFields fs ws (i + 1)
    ('\x7b' :: ws i ++ r.1 ++ ['\x7d'], r.2)

/-- Spaced members: `member gap (, gap member gap)*` (the leading gap of
the whole list is emitted by the array case). -/
def spacedMems : List Json → (Nat → List Char) → Nat → List Char × Nat
  | [], _, i => ([], i)
  | [e], ws, i =>
    let r := spacedC e ws (i + 1)
    (r.1 ++ ws i, r.2)
  | e :: es, ws, i =>
    let r := spacedC e ws (i + 2)
    let rest := spacedMems es ws (r.2)
    (r.1 ++ ws i ++ ',' :: ws (i + 1) ++ rest.1, rest.2)

/-- Spaced fields: `"key" gap : gap value gap (, gap …)*` (the gap before
the first key is emitted by the object case). -/
def spacedFields : List (List SChar × Json) → (Nat → List Char) → Nat →
    List Char × Nat
  | [], _, i => ([], i)
  | [(k, v)], ws, i =>
    let r := spacedC v ws (i + 3)
    ('"' :: k.flatMap SChar.render ++ '"' :: ws i ++ ':' :: ws (i + 1) ++
      r.1 ++ ws (i + 2), r.2)
  | (k, v) :: fs, ws, i =>
    let r := spacedC v ws (i + 4)
    let rest := spacedFields fs ws (r.2)
    ('"' :: k.flatMap SChar.render ++ '"' :: ws i ++ ':' :: ws (i + 1) ++
      r.1 ++ ws (i + 2) ++ ',' :: ws (i + 3) ++ rest.1, rest.2)

end

/-- What may follow the spaced text of a value for the reader to stop
exactly at its end: after a number, the next non-blank rune (if any) must
not extend the number token, and after a bare `0` without fraction it
must be `,`, `]` or `}` (at end of input the reader rejects a bare `0`);
after `true`/`false`/`null` the next non-blank rune must not be a
lowercase letter. -/
def Follow (J : Json) (rest : List Char) : Prop :=
  match J with
  | .num i f _ =>
    match rest.dropWhile jsonBlank with
    | [] => ¬(i = ['0'] ∧ f = none)
    | c :: _ =>
      if i = ['0'] ∧ f = none then c = ',' ∨ c = ']' ∨ c = '\x7d'
      else ¬(jsonDigit c ∨ c = '.' ∨ c = 'e' ∨ c = 'E')
  | .boolJ _ | .nullJ =>
    match rest.dropWhile jsonBlank with
    | [] => True
    | c :: _ => ¬jsonLetter c
  | _ => True

/-- The run of trailing blanks of `rest` that the traversal of `J`
consumes past its own text (number and identifier reads look one
non-blank rune ahead and unread it; containers and strings stop at their
closing rune). -/
def lookB (J : Json) (rest : List Char) : List Char :=
  match J with
  | .num _ _ _ | .boolJ _ | .nullJ => rest.takeWhile jsonBlank
  | _ => []

mutual

/-- Recursion fuel consumed by the traversal of a value, independent of
the inserted blanks. -/
def costV : Json → Nat
  | .str cs => cs.length + 8
  | .num i f e =>
    i.length +
      (match f with | none => 0 | some d => d.length) +
      (match e with | none => 0 | some (_, _, d) => d.length) + 16
  | .boolJ _ => 12
  | .nullJ => 12
  | .arr es => costL es + 8
  | .obj fs => costF fs + 8

/-- Fuel for array members. -/
def costL : List Json → Nat
  | [] => 8
  | e :: es => costV e + costL es + 8

/-- Fuel for object fields. -/
def costF : List (List SChar × Json) → Nat
  | [] => 8
  | (k, v) :: fs => k.length + costV v + costF fs + 16

end

/-- State advance by a traversal step: the input is unchanged, `pos`
moves by `consumed`, `keepBlank` and the wrapper flag are restored, an
absent wrapper is untouched, and a wrapper in a clean state (outside
strings, `last` not a backslash) receives exactly `emitted` (the buffer
is stored reversed) and is clean again. -/
def Advances (s s' : RState) (consumed : Nat) (emitted : List Char) : Prop :=
  s'.data = s.data ∧ s'.pos = s.pos + consumed ∧
  s'.keepBlank = s.keepBlank ∧ s'.wrapped = s.wrapped ∧
  (s.wrapped = false →
    s'.wbuf = s.wbuf ∧ s'.wlast = s.wlast ∧ s'.wscan = s.wscan) ∧
  (s.wrapped = true → s.wscan = false → s.wlast ≠ '\\' →
    s'.wbuf = emitted.reverse ++ s.wbuf ∧ s'.wscan = false ∧
      s'.wlast ≠ '\\')

/-- `Advances` composes. -/
theorem Advances.comp {s s' s'' : RState} {c₁ c₂ : Nat}
    {e₁ e₂ : List Char} (h₁ : Advances s s' c₁ e₁)
    (h₂ : Advances s' s'' c₂ e₂) :
    Advances s s'' (c₁ + c₂) (e₁ ++ e₂) := by
  obtain ⟨hd₁, hp₁, hk₁, hw₁, hu₁, hv₁⟩ := h₁
  obtain ⟨hd₂, hp₂, hk₂, hw₂, hu₂, hv₂⟩ := h₂
  refine ⟨hd₂.trans hd₁, by omega, hk₂.trans hk₁, hw₂.trans hw₁, ?_, ?_⟩
  · intro h
    have hu₁' := hu₁ h
    have hu₂' := hu₂ (hw₁.trans h)
    exact ⟨hu₂'.1.trans hu₁'.1, hu₂'.2.1.trans hu₁'.2.1,
      hu₂'.2.2.trans hu₁'.2.2⟩
  · intro h hs hl
    have hv₁' := hv₁ h hs hl
    have hv₂' := hv₂ (hw₁.trans h) hv₁'.2.1 hv₁'.2.2
    refine ⟨?_, hv₂'.2.1, hv₂'.2.2⟩
    rw [hv₂'.1, hv₁'.1, List.reverse_append, List.append_assoc]

/-- `Advances` is reflexive. -/
theorem Advances.rfl (s : RState) : Advances s s 0 [] := by
  refine ⟨Eq.refl _, by omega, Eq.refl _, Eq.refl _, fun _ => ⟨Eq.refl _, Eq.refl _, Eq.refl _⟩,
    fun _ hs hl => ⟨by simp, hs, hl⟩⟩

/-! ### Theorems about the claims -/

/-- C10: a leaf `Ident` or `Index` node (one with no child) that captured
zero values renders as the empty JSON array `[]`, not an error and not
`null`; with exactly one captured value it renders that value verbatim;
with two or more it renders the JSON array of them. -/
theorem c10_leaf_rendering (nm : String) (ls : List String) (v : String)
    (vs : List String) (h2 : 2 ≤ vs.length) :
    qStringNP (.identQ nm [] none) = "[]" ∧
    qStringNP (.indexQ ls [] none) = "[]" ∧
    qStringNP (.identQ nm [v] none) = v ∧
    qStringNP (.indexQ ls [v] none) = v ∧
    qStringNP (.identQ nm vs none) = "[" ++ joinSep vs ++ "]" ∧
    qStringNP (.indexQ ls vs none) = "[" ++ joinSep vs ++ "]" := by
  have hne : (vs.length == 1) = false := by
    have : vs.length ≠ 1 := by omega
    simpa using this
  have e5 : qStringNP (.identQ nm vs none) =
      if vs.length == 1 then vs.headD "" else writeArray vs := rfl
  have e6 : qStringNP (.indexQ ls vs none) =
      if vs.length == 1 then vs.headD "" else writeArray vs := rfl
  refine ⟨rfl, rfl, rfl, rfl, ?_, ?_⟩ <;>
    rw [(by rfl : ("[" ++ joinSep vs ++ "]" : String) = writeArray vs)] <;>
    simp [e5, e6, hne]

/-- Closed instance of `c10_leaf_rendering` at concrete inputs. -/
theorem c10_leaf_rendering_witness :
    qStringNP (.identQ "user" [] none) = "[]" ∧
    qStringNP (.identQ "user" ["\"a\"", "\"b\""] none) = "[\"a\", \"b\"]" := by
  have h := c10_leaf_rendering "user" [] "x" ["\"a\"", "\"b\""] (by decide)
  exact ⟨h.1, h.2.2.2.2.1.trans (by decide)⟩

set_option maxHeartbeats 2000000 in
/-- C8: the parser acceptance set.  The parser has no case for `(`, so
`[.a, (.b | .c)]` is rejected with a parse error, although the
repository's own tests (`TestParse`, `TestParseBase`) and the acceptance
set require it to parse; the seventeen other texts all parse. -/
theorem c8_acceptance_set :
    goParse "[.a, (.b | .c)]" =
      .error (.parseErr "query: expected dot, bracket or brace") ∧
    (goParse ".").isOk = true ∧
    (goParse ".ident").isOk = true ∧
    (goParse ".\"ident\"").isOk = true ∧
    (goParse ".'ident'").isOk = true ∧
    (goParse ".first.last").isOk = true ∧
    (goParse ".first,.last").isOk = true ∧
    (goParse ".[]").isOk = true ∧
    (goParse ".[0,1,2]").isOk = true ∧
    (goParse ".array[]").isOk = true ∧
    (goParse ".array[].ident").isOk = true ∧
    (goParse "\x7b\x7d").isOk = true ∧
    (goParse "\x7ba: .a\x7d").isOk = true ∧
    (goParse "\x7b.a\x7d").isOk = true ∧
    (goParse "[]").isOk = true ∧
    (goParse "[.a]").isOk = true ∧
    (goParse "..name").isOk = true ∧
    (goParse ".foo | $").isOk = true := by
  exact ⟨rfl, rfl, rfl, rfl, rfl, rfl, rfl, rfl, rfl, rfl, rfl, rfl, rfl,
    rfl, rfl, rfl, rfl, rfl⟩

set_option maxHeartbeats 2000000 in
/-- C4 counterexample: the object constructor `{x: .a.b}` over
`{"a": {"c": 1}}` matches `x` but captures no value, so the Cartesian
product of the columns is empty and the rendering is the empty string —
not an array of objects as the claim requires, and not a single object. -/
theorem c4_empty_product_counterexample :
    goExecute 300 "\x7b\"a\": \x7b\"c\": 1\x7d\x7d" "\x7bx: .a.b\x7d" = .ok "" ∧
    (∀ objs : List String, ("" : String) ≠ "[" ++ joinSep objs ++ "]") := by
  constructor
  · rfl
  · intro objs h
    have h2 := congrArg String.data h
    simp [String.data_append] at h2

/-- C4 (amended): after a full evaluation pass the object rendering forms
the Cartesian product of the per-field value columns (the matched keys in
first-seen order followed by the literal fields); a product of exactly one
tuple is emitted as a single object, a product of two or more tuples as an
array of objects, and an empty product as the empty string; a position
missing from a tuple is rendered as the literal `null` (padding a short
tuple with `null` strings leaves its object unchanged). -/
theorem c4_object_rendering (fs : List (String × QTree)) (keys : List String) :
    (qStringNP (.objectQ fs keys) =
      writeObject ((objCols (qGetFields fs) keys).map Prod.fst)
        (combine ((objCols (qGetFields fs) keys).map Prod.snd))) ∧
    (∀ names t, writeObject names [t] = writeObjectOne names t) ∧
    (∀ names ts, 2 ≤ ts.length →
      writeObject names ts =
        "[" ++ joinSep (ts.map (writeObjectOne names)) ++ "]") ∧
    (∀ names : List String, writeObject names [] = "") ∧
    (∀ names t, writeObjectOne names t =
      writeObjectOne names
        (t ++ List.replicate (names.length - t.length) "null")) := by
  refine ⟨by simp [qStringNP], ?_, ?_, ?_, ?_⟩
  · intro names t
    simp [writeObject, joinSep]
  · intro names ts h
    have : ts.length > 1 := by omega
    simp [writeObject, this]
  · intro names
    simp [writeObject, joinSep]
  · intro names t
    have hmap : List.map
        (fun j => "\"" ++ names.getD j "" ++ "\": " ++ t.getD j "null")
        (List.range names.length) =
      List.map
        (fun j => "\"" ++ names.getD j "" ++ "\": " ++
          (t ++ List.replicate (names.length - t.length) "null").getD j "null")
        (List.range names.length) := by
      apply List.map_congr_left
      intro j hj
      have hjr : j < names.length := List.mem_range.mp hj
      congr 1
      by_cases hlt : j < t.length
      · rw [List.getD_append _ _ _ _ hlt]
      · have h1 : t.getD j "null" = "null" :=
          List.getD_eq_default _ _ (by omega)
        have hrep : ∀ (r m : Nat),
            (List.replicate r "null").getD m "null" = "null" := by
          intro r m
          by_cases hm : m < r
          · rw [List.getD_eq_getElem _ _ (by simpa using hm)]
            simp
          · exact List.getD_eq_default _ _ (by simpa using hm)
        rw [h1, List.getD_append_right _ _ _ _ (by omega), hrep]
    unfold writeObjectOne
    rw [hmap]

/-- Closed instance of `c4_object_rendering` at concrete inputs. -/
theorem c4_object_rendering_witness :
    writeObject ["a", "b"] [["1", "2"], ["1", "3"]] =
      "[\x7b\"a\": 1, \"b\": 2\x7d, \x7b\"a\": 1, \"b\": 3\x7d]" ∧
    writeObjectOne ["a", "b"] ["1"] = "\x7b\"a\": 1, \"b\": null\x7d" := by
  have h := c4_object_rendering [] []
  have h3 := h.2.2.1 ["a", "b"] [["1", "2"], ["1", "3"]] (by decide)
  exact ⟨h3.trans (by decide), by decide⟩

set_option maxHeartbeats 2000000 in
/-- C7 counterexample: evaluating `.a | .b` over `{"a": 0}` runs the
stage `.b` on the captured span `0`, whose evaluation fails (the reader
rejects a bare `0` before end of input), yet the whole evaluation
returns success (the deferred `update` discards the stage error). -/
theorem c7_stage_error_discarded :
    (executeStr 200 "0" (.identQ "b" [] none) none).2.2 =
      some (.malformed "expected fraction after 0") ∧
    goExecute 300 "\x7b\"a\": 0\x7d" ".a | .b" = .ok "[]" := by
  exact ⟨rfl, rfl⟩

/-- C7 (amended): within `pipeline.update` the first failing stage's
error terminates the stage loop (later stages are not run) and is
returned by `update`; but the reader invokes `update` from a deferred
call whose error is discarded, so the error of a captured-span update
never reaches the caller: the result of `filter` carries the traversal's
error only. -/
theorem c7_pipeline_error_flow :
    (∀ (n : Nat) (sq : QTree) (rest : List QTree) (env : Option QTree)
        (str : String) (e : Err),
      (executeStr n str (clearQ sq) env).2.2 = some e →
      pipeStages (n + 1) (sq :: rest) env str =
        ((executeStr n str (clearQ sq) env).1 :: rest,
          (executeStr n str (clearQ sq) env).2.1, str, some e)) ∧
    (∀ (n : Nat) (s : RState) (qq : QTree) (env : Option QTree)
        (key : String) (q' : QTree) (env' : Option QTree),
      nextStep (n + 1) env qq key = .capN q' env' → keepAll q' = false →
      (filterR (n + 1) s (some qq) env key).2.2.2 =
        (traverse n (wrapW s) none env').2.2.2) := by
  constructor
  · intro n sq rest env str e h
    rcases hx : executeStr n str (clearQ sq) env with ⟨q1, env1, err1⟩
    rw [hx] at h
    simp at h
    simp [pipeStages, hx, h]
  · intro n s qq env key q' env' hn hk
    rcases ht : traverse n (wrapW s) none env' with ⟨s2, c2, env2, err2⟩
    rcases hu : updateQ n (unwrapW s2).1 q' env2 with ⟨q3, env3, err3⟩
    simp [filterR, hn, hk, ht, hu]

set_option maxHeartbeats 2000000 in
/-- Closed instance of `c7_pipeline_error_flow` at concrete inputs. -/
theorem c7_pipeline_error_flow_witness :
    pipeStages 201 [QTree.identQ "b" [] none] none "0" =
      ([QTree.identQ "b" [] none], none, "0",
        some (.malformed "expected fraction after 0")) ∧
    (filterR 6 (mkState "1") (some (QTree.identQ "a" [] none)) none "a").2.2.2 =
      (traverse 5 (wrapW (mkState "1")) none none).2.2.2 := by
  constructor
  · exact (c7_pipeline_error_flow.1 200 (QTree.identQ "b" [] none) [] none "0"
      (.malformed "expected fraction after 0") rfl).trans (by rfl)
  · exact c7_pipeline_error_flow.2 5 (mkState "1") (QTree.identQ "a" [] none)
      none "a" (QTree.identQ "a" [] none) none rfl rfl

set_option maxHeartbeats 2000000 in
/-- C1 counterexample: the valid JSON documents `0` and `["a\\",1]`
break the claim: evaluation of `0` with the identity query fails
altogether, and `["a\\",1]` (a string ending in an escaped backslash)
is echoed without the mandated space after the comma, because the
compact writer's in-string tracker misreads the closing quote after
`\\`. -/
theorem c1_identity_counterexample :
    goExecute 200 "0" "." = .error (.malformed "expected fraction after 0") ∧
    goExecute 300 "[\"a\\\\\",1]" "." = .ok "[\"a\\\\\",1]" ∧
    ("[\"a\\\\\",1]" : String) ≠ "[\"a\\\\\", 1]" := by
  exact ⟨rfl, rfl, by decide⟩

set_option maxHeartbeats 2000000 in
/-- C2 counterexample: for `D = [1,2]`, `Q1 = .[]` and `Q2 = .a`, the
pipeline feeds each captured element to `.a` separately and yields
`[[], []]`, while evaluating `.a` on the rendered intermediate `[1, 2]`
(itself a valid JSON value, as its identity evaluation shows) yields
`[]`. -/
theorem c2_pipeline_counterexample :
    goExecute 160 "[1,2]" ".[] | .a" = .ok "[[], []]" ∧
    goExecute 160 "[1,2]" ".[]" = .ok "[1, 2]" ∧
    goExecute 160 "[1, 2]" ".a" = .ok "[]" ∧
    goExecute 160 "[1, 2]" "." = .ok "[1, 2]" ∧
    ("[[], []]" : String) ≠ "[]" := by
  exact ⟨rfl, rfl, rfl, rfl, by decide⟩

set_option maxHeartbeats 2000000 in
/-- C3 counterexample: the reader rejects the negative number `-5`
(there is no `-` case in `traverse`) and rejects `[1e01]` although its
exponent digits are `01`, not `0` (any exponent whose first digit is `0`
is rejected). -/
theorem c3_number_counterexample :
    goExecute 200 "-5" "." = .error (.malformed "unexpected character") ∧
    goExecute 300 "[1e01]" "." =
      .error (.malformed "expected digit (different of 0) after exponent") := by
  exact ⟨rfl, rfl⟩

set_option maxHeartbeats 2000000 in
/-- C5 counterexample: `{}` is a valid JSON value followed by no further
data, yet evaluation fails: the reader's object loop demands a quoted key
immediately, so the empty object is rejected. -/
theorem c5_eof_counterexample :
    goExecute 200 "\x7b\x7d" "." = .error (.malformed "key: expected quote") := by
  exact rfl

end MQ
